import Mathlib

/-!
Shallow embedding of the FTPClient-python repository core, over List Char
strings, together with proofs settling the frozen claims about the
protocol codec (src/common/protocol.py), the control-channel framing and
command logging (src/client/ftp_client.py), the transfer task queue
(src/client/transfer_queue.py) and the two connection pools
(src/client/advanced_client.py, src/client/ftp_client.py).
-/

namespace FTPVerif

/-! Characters and Python-style string helpers. -/

/-- ASCII decimal digit test, as used by the regex class and by int(). -/
def isDigitC (c : Char) : Bool := 48 ≤ c.toNat && c.toNat ≤ 57

/-- Whitespace stripped by Python str.strip() (ASCII subset). -/
def pyWhitespace (c : Char) : Bool :=
  c = ' ' || c = '\t' || c = '\n' || c = '\r' || c = Char.ofNat 11 || c = Char.ofNat 12

/-- Model of Python str.strip(): drop whitespace from both ends. -/
def stripChars (l : List Char) : List Char :=
  ((l.dropWhile pyWhitespace).reverse.dropWhile pyWhitespace).reverse

/-- Numeric value of an ASCII digit character. -/
def digitVal (c : Char) : Nat := c.toNat - 48

/-- Value of a run of digit characters, most significant first. -/
def digitsToNat (l : List Char) : Nat := l.foldl (fun a c => a * 10 + digitVal c) 0

/-- Digit-with-underscores tail of Python int() parsing: after the first
digit, digits may be separated by single underscores. -/
def pyDigitsGo : Nat → List Char → Option Nat
  | acc, [] => some acc
  | acc, c :: cs =>
    if isDigitC c then pyDigitsGo (acc * 10 + digitVal c) cs
    else if c = '_' then
      match cs with
      | [] => none
      | d :: cs2 => if isDigitC d then pyDigitsGo (acc * 10 + digitVal d) cs2 else none
    else none

/-- Nonempty digit sequence with optional single underscores between digits. -/
def pyDigits : List Char → Option Nat
  | [] => none
  | c :: cs => if isDigitC c then pyDigitsGo (digitVal c) cs else none

/-- Model of Python int(str): strip whitespace, optional sign, digits with
optional underscores between digits; none models the ValueError raise. -/
def pyInt (l : List Char) : Option Int :=
  match stripChars l with
  | [] => none
  | c :: rest =>
    if c = '+' then (pyDigits rest).map (fun n => (n : Int))
    else if c = '-' then (pyDigits rest).map (fun n => -(n : Int))
    else (pyDigits (c :: rest)).map (fun n => (n : Int))

/-- Model of FTPProtocolMixin.parse_response: code = int(response[:3]) and
message = response[3:].strip(); on ValueError it returns (None, response). -/
def parse_response (response : List Char) : Option Int × List Char :=
  match pyInt (response.take 3) with
  | some code => (some code, stripChars (response.drop 3))
  | none => (none, response)

/-- The standard decimal digit for a value below ten. -/
def digitChar10 : Nat → Char
  | 0 => '0' | 1 => '1' | 2 => '2' | 3 => '3' | 4 => '4'
  | 5 => '5' | 6 => '6' | 7 => '7' | 8 => '8' | _ => '9'

/-- Model of Python str(n) for a nonnegative integer: standard decimal. -/
def toDecimal (n : Nat) : List Char :=
  if h : n < 10 then [digitChar10 n]
  else toDecimal (n / 10) ++ [digitChar10 (n % 10)]
  termination_by n
  decreasing_by exact Nat.div_lt_self (by omega) (by omega)

/-- Model of Python str.split(sep) for a one-character separator. -/
def pySplit (sep : Char) : List Char → List (List Char)
  | [] => [[]]
  | c :: cs =>
    if c = sep then [] :: pySplit sep cs
    else
      match pySplit sep cs with
      | h :: t => (c :: h) :: t
      | [] => [[c]]

/-- Model of Python sep.join(parts) for a one-character separator. -/
def pyJoin (sep : Char) : List (List Char) → List Char
  | [] => []
  | [x] => x
  | x :: y :: t => x ++ sep :: pyJoin sep (y :: t)

/-- Model of FTPProtocolMixin.build_port_command: split the dotted ip on
dots, join the parts with commas, and append port div 256 and port mod 256. -/
def build_port_command (ip : List Char) (port : Nat) : List Char :=
  pyJoin ',' (pySplit '.' ip) ++ ',' :: (toDecimal (port / 256) ++ ',' :: toDecimal (port % 256))

/-- Greedy digit run at the head of the input, with the rest. -/
def takeDigitRun (l : List Char) : List Char × List Char :=
  (l.takeWhile isDigitC, l.dropWhile isDigitC)

/-- Attempt to match k comma-separated digit runs at this position, as the
regex (d+),(d+),... does with greedy groups; returns values and leftover. -/
def matchGroups : Nat → List Char → Option (List Nat × List Char)
  | 0, l => some ([], l)
  | k + 1, l =>
    let run := (takeDigitRun l).1
    let rest := (takeDigitRun l).2
    if run.isEmpty then none
    else if k = 0 then some ([digitsToNat run], rest)
    else
      match rest with
      | ',' :: rest2 => (matchGroups k rest2).map (fun p => (digitsToNat run :: p.1, p.2))
      | _ => none

/-- Leftmost match of six comma-separated digit runs, as re.search does. -/
def findSix : List Char → Option (List Nat)
  | [] => none
  | c :: cs =>
    match matchGroups 6 (c :: cs) with
    | some p => some p.1
    | none => findSix cs

/-- Model of FTPProtocolMixin.parse_pasv_response: regex-search the reply
for six comma-separated numbers; ip joins the first four with dots, the
port is the fifth shifted left by eight plus the sixth; none models the
ValueError raise. -/
def parse_pasv_response (response : List Char) : Option (List Char × Nat) :=
  match findSix response with
  | some [a, b, c, d, e, f] =>
      some (pyJoin '.' [toDecimal a, toDecimal b, toDecimal c, toDecimal d], (e <<< 8) + f)
  | _ => none

/-- Canonical dotted-quad rendering of four address bytes. -/
def dottedQuad (a b c d : Nat) : List Char :=
  toDecimal a ++ '.' :: (toDecimal b ++ '.' :: (toDecimal c ++ '.' :: toDecimal d))

/-! Control-channel framing: FTPClient._read_response and _send_command. -/

/-- Outcome of reading one server reply on the control channel. -/
inductive ReadResult where
  | ok (response : List Char) (code : Option Int)
  | cmdError (line : List Char)
  | closed
deriving DecidableEq

/-- Model of the FTPClient._read_response receive loop, with the received
data presented as the successive lines delivered by recv. A line whose
first character is a five and whose fourth character is a space raises
CommandError; a line whose length exceeds three and whose fourth character
is a space ends the reply, whose code is parse_response of the whole
accumulated text; every other line is appended and reading continues.
An exhausted input models recv returning no data (connection closed). -/
def readLoop (acc : List Char) : List (List Char) → ReadResult
  | [] => .closed
  | line :: rest =>
    if line.head? = some '5' ∧ line.get? 3 = some ' ' then
      .cmdError (stripChars line)
    else if 3 < line.length ∧ line.get? 3 = some ' ' then
      .ok (acc ++ line) (parse_response (acc ++ line)).1
    else readLoop (acc ++ line) rest

/-- Reading a reply starts from an empty accumulator. -/
def readResponse (lines : List (List Char)) : ReadResult := readLoop [] lines

/-- The termination condition the specification states for a reply line:
exactly three digits followed by a single space. -/
def beginsThreeDigitsSpace (l : List Char) : Bool :=
  match l with
  | a :: b :: c :: d :: _ => isDigitC a && isDigitC b && isDigitC c && d = ' '
  | _ => false

/-- The command prefix that must be masked in logs. -/
def passHead : List Char := "PASS ".toList

/-- Model of the log text produced by FTPClient._send_command: commands
beginning with PASS and a space are replaced by a fixed masked string. -/
def logOf (command : List Char) : List Char :=
  if passHead.isPrefixOf command then "PASS ********".toList else command

/-- Model of the bytes FTPClient._send_command writes to the socket. -/
def wireOf (command : List Char) : List Char := command ++ "\r\n".toList

/-! Transfer task model: src/client/transfer_queue.py. -/

/-- Task priorities with their source ordinals. -/
inductive TaskPriority where
  | LOW | NORMAL | HIGH | URGENT
deriving DecidableEq

/-- The value attribute of the TaskPriority enum. -/
def TaskPriority.value : TaskPriority → Nat
  | .LOW => 0
  | .NORMAL => 1
  | .HIGH => 2
  | .URGENT => 3

/-- Task lifecycle states. -/
inductive TaskStatus where
  | PENDING | RUNNING | COMPLETED | FAILED | CANCELED | PAUSED | RETRYING
deriving DecidableEq

/-- The TransferTask dataclass fields the claims depend on; created_time
is an abstract timestamp and progress is an exact rational. -/
structure TransferTask where
  id : String
  priority : TaskPriority
  created_time : Nat
  status : TaskStatus := .PENDING
  progress : Rat := 0
  retry_count : Nat := 0
  max_retries : Nat := 3
  retry_delay : Nat := 5
deriving DecidableEq

/-- Model of TransferTask.update_progress: when the total is positive the
progress becomes the capped percentage, otherwise zero. -/
def update_progress (t : TransferTask) (current total : Nat) : TransferTask :=
  if 0 < total then
    { t with progress := min 100 ((current : Rat) / (total : Rat) * 100) }
  else { t with progress := 0 }

/-- Model of TransferTask.mark_running. -/
def mark_running (t : TransferTask) : TransferTask := { t with status := .RUNNING }

/-- Model of TransferTask.mark_completed: status COMPLETED, progress 100. -/
def mark_completed (t : TransferTask) : TransferTask :=
  { t with status := .COMPLETED, progress := 100 }

/-- Model of TransferTask.mark_failed. -/
def mark_failed (t : TransferTask) : TransferTask := { t with status := .FAILED }

/-- Model of TransferTask.mark_canceled. -/
def mark_canceled (t : TransferTask) : TransferTask := { t with status := .CANCELED }

/-- Model of TransferTask.mark_retrying: status RETRYING and the retry
counter incremented. -/
def mark_retrying (t : TransferTask) : TransferTask :=
  { t with status := .RETRYING, retry_count := t.retry_count + 1 }

/-- Model of TransferTask.can_retry. -/
def can_retry (t : TransferTask) : Bool :=
  t.status = .FAILED && t.retry_count < t.max_retries

/-- The lifecycle calls a client may issue on a task. -/
inductive TaskOp where
  | update (current total : Nat)
  | run | complete | fail | cancel
deriving DecidableEq

/-- Apply one lifecycle call. -/
def applyOp (t : TransferTask) : TaskOp → TransferTask
  | .update c tot => update_progress t c tot
  | .run => mark_running t
  | .complete => mark_completed t
  | .fail => mark_failed t
  | .cancel => mark_canceled t

/-- Apply a sequence of lifecycle calls. -/
def applyOps (t : TransferTask) (ops : List TaskOp) : TransferTask := ops.foldl applyOp t

/-- Sequences in which update_progress is never called on a task that is
already COMPLETED (the code path the scheduler actually drives). -/
def okSeq (t : TransferTask) : List TaskOp → Bool
  | [] => true
  | op :: rest =>
    (match op with
     | .update _ _ => t.status ≠ TaskStatus.COMPLETED
     | _ => true) && okSeq (applyOp t op) rest

/-- The progress invariant of the claim. -/
def progressInv (t : TransferTask) : Prop :=
  0 ≤ t.progress ∧ t.progress ≤ 100 ∧ (t.status = .COMPLETED → t.progress = 100)

/-- The heap key add_task uses: the negated priority ordinal paired with
the creation timestamp, ordered lexicographically by the min-heap. -/
def taskKey (t : TransferTask) : Int × Nat := (-(t.priority.value : Int), t.created_time)

/-- Boolean lexicographic comparison of heap keys. -/
def keyLeB (a b : TransferTask) : Bool :=
  decide ((taskKey a).1 < (taskKey b).1) ||
    (decide ((taskKey a).1 = (taskKey b).1) && decide ((taskKey a).2 ≤ (taskKey b).2))

/-- Strict lexicographic order on heap keys. -/
def keyLt (a b : TransferTask) : Prop :=
  (taskKey a).1 < (taskKey b).1 ∨
    ((taskKey a).1 = (taskKey b).1 ∧ (taskKey a).2 < (taskKey b).2)

/-- Extract a minimal-key element (leftmost among ties) and the rest. -/
def selectMin (x : TransferTask) : List TransferTask → TransferTask × List TransferTask
  | [] => (x, [])
  | y :: ys =>
    if keyLeB x y then
      ((selectMin x ys).1, y :: (selectMin x ys).2)
    else
      ((selectMin y ys).1, x :: (selectMin y ys).2)

/-- Fueled repeated extraction of the heap minimum. -/
def popAllF : Nat → List TransferTask → List TransferTask
  | 0, _ => []
  | _ + 1, [] => []
  | n + 1, x :: xs => (selectMin x xs).1 :: popAllF n (selectMin x xs).2

/-- The order in which the priority queue hands tasks to the workers. -/
def popAll (l : List TransferTask) : List TransferTask := popAllF l.length l

/-- What the retry monitor does to one eligible failed task: mark_retrying,
then a sleep of the task retry_delay, then reinjection under the heap key. -/
structure RetryEffect where
  task : TransferTask
  sleep_seconds : Nat
  requeue_key : Int × Nat
deriving DecidableEq

/-- Model of the per-task body of TransferQueue._retry_worker. -/
def retryStep (t : TransferTask) : RetryEffect :=
  { task := mark_retrying t
    sleep_seconds := (mark_retrying t).retry_delay
    requeue_key := taskKey (mark_retrying t) }

/-! Scheduler bookkeeping: cancel_task and the worker pop check. -/

/-- Lookup in a dict modelled as an association list. -/
def lookupT : List (String × TransferTask) → String → Option TransferTask
  | [], _ => none
  | (k, v) :: rest, key => if k = key then some v else lookupT rest key

/-- Removal from a dict modelled as an association list. -/
def removeT : List (String × TransferTask) → String → List (String × TransferTask)
  | [], _ => []
  | (k, v) :: rest, key => if k = key then removeT rest key else (k, v) :: removeT rest key

/-- The TransferQueue dictionaries and the pending heap contents. -/
structure QueueState where
  queued : List TransferTask
  active : List (String × TransferTask)
  completed : List (String × TransferTask)
  failed : List (String × TransferTask)
deriving DecidableEq

/-- Model of TransferQueue.cancel_task: active tasks cannot be canceled;
failed tasks are marked canceled and moved to completed; completed tasks
cannot be canceled; any other id returns success without touching state. -/
def cancel_task (s : QueueState) (task_id : String) : Bool × QueueState :=
  if (lookupT s.active task_id).isSome then (false, s)
  else
    match lookupT s.failed task_id with
    | some t =>
        (true, { s with failed := removeT s.failed task_id,
                        completed := (task_id, mark_canceled t) :: s.completed })
    | none =>
        if (lookupT s.completed task_id).isSome then (false, s)
        else (true, s)

/-- What a worker does with a task it pops from the heap. -/
inductive WorkerAction where
  | skipped
  | executed (t : TransferTask)
deriving DecidableEq

/-- Model of the pop check in TransferQueue._worker: canceled tasks are
discarded; all others are marked running and executed. -/
def workerPop (t : TransferTask) : WorkerAction :=
  if t.status = .CANCELED then .skipped else .executed (mark_running t)

/-! Connection pools. FTPConnectionPool (ftp_client.py) keeps a list of
idle clients and a count of active ones; FTPClientPool (advanced_client.py)
keeps a bounded queue of idle clients and a dict of clients in use. -/

/-- Counted state of FTPConnectionPool: length of the idle list and the
active_connections counter. -/
structure ConnPoolState where
  idle : Nat
  active : Nat
deriving DecidableEq

/-- One observable transition of FTPConnectionPool under its lock.
dropStale covers both the validator evicting an idle client and
get_connection popping an invalid one; reuse is get_connection returning a
popped valid client; createNew is get_connection connecting a fresh client
once the idle list is exhausted and the active count is below the limit;
releaseBack and releaseDead are the two branches of release_connection. -/
inductive ConnPoolStep (maxConn : Nat) : ConnPoolState → ConnPoolState → Prop
  | dropStale (i a : Nat) : ConnPoolStep maxConn ⟨i + 1, a⟩ ⟨i, a⟩
  | reuse (i a : Nat) : ConnPoolStep maxConn ⟨i + 1, a⟩ ⟨i, a + 1⟩
  | createNew (a : Nat) : a < maxConn → ConnPoolStep maxConn ⟨0, a⟩ ⟨0, a + 1⟩
  | releaseBack (i a : Nat) : ConnPoolStep maxConn ⟨i, a + 1⟩ ⟨i + 1, a⟩
  | releaseDead (i a : Nat) : ConnPoolStep maxConn ⟨i, a⟩ ⟨i, a - 1⟩

/-- States FTPConnectionPool can reach from its initial empty pool. -/
inductive ConnReach (maxConn : Nat) : ConnPoolState → Prop
  | init : ConnReach maxConn ⟨0, 0⟩
  | step {s s2 : ConnPoolState} :
      ConnReach maxConn s → ConnPoolStep maxConn s s2 → ConnReach maxConn s2

/-- State of FTPClientPool: idle clients in queue order, ids of clients in
use, and a counter supplying fresh client ids. -/
structure ClientPoolState where
  idle : List Nat
  busy : List Nat
  next_id : Nat
deriving DecidableEq

/-- FTPClientPool construction: the queue is pre-filled with pool_size
fresh clients. -/
def clientPoolInit (pool_size : Nat) : ClientPoolState :=
  { idle := List.range pool_size, busy := [], next_id := pool_size }

/-- Model of FTPClientPool.get_client on the healthy path: pop the oldest
idle client if any and mark it in use; when the queue is empty, create a
brand-new client and mark it in use. -/
def get_client (s : ClientPoolState) : Nat × ClientPoolState :=
  match s.idle with
  | c :: rest => (c, { s with idle := rest, busy := c :: s.busy })
  | [] => (s.next_id, { s with busy := s.next_id :: s.busy, next_id := s.next_id + 1 })

/-- Model of FTPClientPool.release_client on the healthy path: a client in
use is removed from the in-use dict and returned to the queue when the
queue has room, else closed; foreign clients are ignored. -/
def release_client (pool_size : Nat) (s : ClientPoolState) (c : Nat) : ClientPoolState :=
  if c ∈ s.busy then
    if s.idle.length < pool_size then
      { s with busy := s.busy.erase c, idle := s.idle ++ [c] }
    else { s with busy := s.busy.erase c }
  else s

/-- Checkout and release requests against FTPClientPool. -/
inductive PoolOp where
  | get
  | release (c : Nat)
deriving DecidableEq

/-- Apply one pool request. -/
def applyPoolOp (pool_size : Nat) (s : ClientPoolState) : PoolOp → ClientPoolState
  | .get => (get_client s).2
  | .release c => release_client pool_size s c

/-- Run a request sequence against a freshly constructed FTPClientPool. -/
def runPool (pool_size : Nat) (ops : List PoolOp) : ClientPoolState :=
  ops.foldl (applyPoolOp pool_size) (clientPoolInit pool_size)

/-- The structural invariant FTPClientPool does maintain: no duplicates,
no client both idle and in use, ids below the freshness counter, and an
idle queue never holding more than pool_size clients. -/
def cpInv (pool_size : Nat) (s : ClientPoolState) : Prop :=
  s.idle.Nodup ∧ s.busy.Nodup ∧ (∀ c ∈ s.idle, c ∉ s.busy) ∧
    (∀ c ∈ s.idle, c < s.next_id) ∧ (∀ c ∈ s.busy, c < s.next_id) ∧
    s.idle.length ≤ pool_size

/-! Resumable transfers: the pre-data-channel phase of FTPClient.download
and FTPClient.upload. -/

/-- The environment a transfer call observes: login state, whether the
local file exists, its size, and the result of the SIZE command on the
remote path (none models the CommandError raise). -/
structure TransferEnv where
  logged_in : Bool
  local_exists : Bool
  local_size : Nat
  remote_size_result : Option Nat
deriving DecidableEq

/-- How a transfer call leaves the pre-data-channel phase. -/
inductive TransferOutcome where
  | authError
  | localMissing
  | skipped (success : Bool) (size : Nat) (elapsed : Nat)
  | opensData (rest_offset : Nat)
deriving DecidableEq

/-- Model of FTPClient.download up to the data-channel creation: failed
SIZE leaves remote_size zero; with resume and an existing local file of
size at least the remote size the call returns (True, remote_size, 0)
without creating a data connection; otherwise a data connection is
created, resuming from the local size when resuming. -/
def download_start (env : TransferEnv) (resume : Bool) : TransferOutcome :=
  if env.logged_in = false then .authError
  else
    let remote_size := env.remote_size_result.getD 0
    if resume && env.local_exists then
      if remote_size ≤ env.local_size then .skipped true remote_size 0
      else .opensData env.local_size
    else .opensData 0

/-- Model of FTPClient.upload up to the data-channel creation: a missing
local file raises; with resume, a successful SIZE of at least the local
size returns (True, local_size, 0) without creating a data connection; a
failed SIZE restarts from offset zero; otherwise a data connection is
created, resuming from the remote size when resuming. -/
def upload_start (env : TransferEnv) (resume : Bool) : TransferOutcome :=
  if env.logged_in = false then .authError
  else if env.local_exists = false then .localMissing
  else if resume then
    match env.remote_size_result with
    | some remote_size =>
        if env.local_size ≤ remote_size then .skipped true env.local_size 0
        else .opensData remote_size
    | none => .opensData 0
  else .opensData 0

/-! Concrete inputs used by witnesses and counterexamples. -/

/-- A freshly submitted PENDING task still sitting in the heap. -/
def tP : TransferTask := { id := "task-1", priority := .NORMAL, created_time := 0 }

/-- A queue state whose only task is tP, still queued. -/
def s3 : QueueState := { queued := [tP], active := [], completed := [], failed := [] }

/-- A failed task with one retry spent and retry budget remaining. -/
def tFail : TransferTask :=
  { id := "task-2", priority := .NORMAL, created_time := 0,
    status := .FAILED, retry_count := 1 }

/-- A default task for lifecycle experiments. -/
def t6 : TransferTask := { id := "task-3", priority := .NORMAL, created_time := 0 }

/-- A transfer environment where local and remote sizes agree. -/
def envW : TransferEnv :=
  { logged_in := true, local_exists := true, local_size := 10,
    remote_size_result := some 10 }

/-- An urgent early task and a normal later one, for queue-order witnesses. -/
def tA : TransferTask := { id := "task-A", priority := .URGENT, created_time := 5 }

/-- The normal-priority counterpart of tA. -/
def tB : TransferTask := { id := "task-B", priority := .NORMAL, created_time := 1 }

end FTPVerif

namespace FTPVerif

/-! Theorems. Helper lemmas come first, then one theorem per claim with
its witness or counterexample. -/

/-- A list is a Boolean prefix of itself followed by anything. -/
theorem isPrefixOf_append_self (l p : List Char) : l.isPrefixOf (l ++ p) = true := by
  induction l with
  | nil => simp [List.isPrefixOf]
  | cons c cs ih => simp [List.isPrefixOf, ih]

/-- C3: the code contradicts its own comment and the spec: cancel_task on
a PENDING task that is still in the priority heap returns True yet mutates
nothing, so the task keeps status PENDING and the worker that later pops
it executes it (marking it running on a borrowed session) instead of
discarding it. -/
theorem c3_cancel_pending_bug :
    (cancel_task s3 "task-1").1 = true ∧
    (cancel_task s3 "task-1").2 = s3 ∧
    tP.status = .PENDING ∧
    workerPop tP = .executed (mark_running tP) := by
  exact ⟨rfl, rfl, rfl, rfl⟩

/-- C4 counterexample: for a failed task with retry_count 1 and
retry_delay 5 the monitor sleeps 5 seconds, not the claimed
retry_delay times two to the retry_count which is 10, and it sets status
RETRYING, not the claimed PENDING. -/
theorem c4_counterexample :
    can_retry tFail = true ∧
    (retryStep tFail).sleep_seconds = 5 ∧
    tFail.retry_delay * 2 ^ tFail.retry_count = 10 ∧
    (retryStep tFail).sleep_seconds ≠ tFail.retry_delay * 2 ^ tFail.retry_count ∧
    (retryStep tFail).task.status = .RETRYING ∧
    (retryStep tFail).task.status ≠ .PENDING := by
  refine ⟨rfl, rfl, rfl, by decide, rfl, by decide⟩

/-- C4 amended: the retry monitor, picking up a failed task with
retry_count below max_retries, sets its status to RETRYING (not PENDING),
increments retry_count, sleeps the fixed retry_delay of the task (no
exponential backoff), and reinjects it under the heap key built from its
unchanged original priority and creation time. -/
theorem c4_retry_monitor (t : TransferTask) (h : can_retry t = true) :
    (retryStep t).task.status = .RETRYING ∧
    (retryStep t).task.retry_count = t.retry_count + 1 ∧
    (retryStep t).sleep_seconds = t.retry_delay ∧
    (retryStep t).task.priority = t.priority ∧
    (retryStep t).requeue_key = (-(t.priority.value : Int), t.created_time) := by
  exact ⟨rfl, rfl, rfl, rfl, rfl⟩

/-- C4 amended witness at the concrete failed task. -/
theorem c4_retry_monitor_witness :
    (retryStep tFail).sleep_seconds = 5 ∧ (retryStep tFail).task.retry_count = 2 := by
  have h := c4_retry_monitor tFail (by decide)
  exact ⟨h.2.2.1, h.2.1⟩

/-- C7: with resume, a download whose existing local file is at least the
remote size returns (True, remote_size, 0) without opening a data channel,
and an upload whose remote size is at least the local size returns
(True, local_size, 0) without opening a data channel. -/
theorem c7_resume_skip (env : TransferEnv) :
    (env.logged_in = true → env.local_exists = true →
      ∀ rsz, env.remote_size_result = some rsz → rsz ≤ env.local_size →
        download_start env true = .skipped true rsz 0) ∧
    (env.logged_in = true → env.local_exists = true →
      ∀ rsz, env.remote_size_result = some rsz → env.local_size ≤ rsz →
        upload_start env true = .skipped true env.local_size 0) := by
  constructor
  · intro hl he rsz hr hle
    simp [download_start, hl, he, hr, hle]
  · intro hl he rsz hr hle
    simp [upload_start, hl, he, hr, hle]

/-- C7 witness at a ten-byte file fully present on both sides. -/
theorem c7_resume_skip_witness :
    download_start envW true = .skipped true 10 0 ∧
    upload_start envW true = .skipped true 10 0 := by
  exact ⟨(c7_resume_skip envW).1 rfl rfl 10 rfl (by decide),
         (c7_resume_skip envW).2 rfl rfl 10 rfl (by decide)⟩

/-- C8: every command starting with PASS and a space is logged as the
fixed masked string, so the log text is independent of the password, while
the bytes put on the wire still carry the actual password. -/
theorem c8_pass_masked (p1 p2 : List Char) :
    logOf (passHead ++ p1) = "PASS ********".toList ∧
    logOf (passHead ++ p1) = logOf (passHead ++ p2) ∧
    wireOf (passHead ++ p1) = passHead ++ p1 ++ "\r\n".toList ∧
    (p1 ≠ p2 → wireOf (passHead ++ p1) ≠ wireOf (passHead ++ p2)) := by
  have h1 : logOf (passHead ++ p1) = "PASS ********".toList := by
    simp [logOf, isPrefixOf_append_self]
  have h2 : logOf (passHead ++ p2) = "PASS ********".toList := by
    simp [logOf, isPrefixOf_append_self]
  refine ⟨h1, h1.trans h2.symm, rfl, ?_⟩
  intro hne heq
  apply hne
  have h0 : passHead ++ (p1 ++ "\r\n".toList) = passHead ++ (p2 ++ "\r\n".toList) := by
    simpa [wireOf, List.append_assoc] using heq
  exact List.append_cancel_right (List.append_cancel_left h0)

/-- C8 witness at two distinct concrete passwords. -/
theorem c8_pass_masked_witness :
    logOf (passHead ++ "secret1".toList) = "PASS ********".toList ∧
    wireOf (passHead ++ "secret1".toList) ≠ wireOf (passHead ++ "secret2".toList) := by
  exact ⟨(c8_pass_masked "secret1".toList "secret2".toList).1,
         (c8_pass_masked "secret1".toList "secret2".toList).2.2.2 (by decide)⟩

/-- C6 counterexample: calling update_progress after mark_completed (a
sequence the claim quantifies over) leaves the task COMPLETED with
progress 50, violating the claimed COMPLETED-implies-100. -/
theorem c6_counterexample :
    (applyOps t6 [.complete, .update 1 2]).status = .COMPLETED ∧
    (applyOps t6 [.complete, .update 1 2]).progress = 50 ∧
    ¬ ((applyOps t6 [.complete, .update 1 2]).status = .COMPLETED →
        (applyOps t6 [.complete, .update 1 2]).progress = 100) := by
  refine ⟨rfl, ?_, ?_⟩
  · show min 100 ((1 : Rat) / (2 : Rat) * 100) = 50
    norm_num
  · intro hcontra
    have h50 : (applyOps t6 [.complete, .update 1 2]).progress = 50 := by
      show min 100 ((1 : Rat) / (2 : Rat) * 100) = 50
      norm_num
    have := hcontra rfl
    rw [h50] at this
    norm_num at this

/-- One lifecycle call keeps progress within bounds. -/
theorem applyOp_progress_bounds (t : TransferTask) (op : TaskOp)
    (h0 : 0 ≤ t.progress) (h1 : t.progress ≤ 100) :
    0 ≤ (applyOp t op).progress ∧ (applyOp t op).progress ≤ 100 := by
  cases op with
  | update c tot =>
    by_cases htot : 0 < tot
    · simp only [applyOp, update_progress, if_pos htot]
      constructor
      · apply le_min
        · norm_num
        · positivity
      · exact min_le_left _ _
    · simp only [applyOp, update_progress, if_neg htot]
      norm_num
  | run => exact ⟨h0, h1⟩
  | complete => norm_num [applyOp, mark_completed]
  | fail => exact ⟨h0, h1⟩
  | cancel => exact ⟨h0, h1⟩

/-- One lifecycle call allowed by okSeq preserves the full invariant. -/
theorem applyOp_progressInv (t : TransferTask) (op : TaskOp)
    (hinv : progressInv t)
    (hok : ∀ c tot, op = .update c tot → t.status ≠ TaskStatus.COMPLETED) :
    progressInv (applyOp t op) := by
  obtain ⟨h0, h1, hc⟩ := hinv
  cases op with
  | update c tot =>
    obtain ⟨g0, g1⟩ := applyOp_progress_bounds t (.update c tot) h0 h1
    refine ⟨g0, g1, ?_⟩
    intro hst
    exfalso
    apply hok c tot rfl
    have : (applyOp t (.update c tot)).status = t.status := by
      by_cases htot : 0 < tot <;>
        simp [applyOp, update_progress, htot]
    rw [this] at hst
    exact hst
  | run => exact ⟨h0, h1, by intro hst; cases hst⟩
  | complete => refine ⟨by norm_num [applyOp, mark_completed], by norm_num [applyOp, mark_completed], fun _ => rfl⟩
  | fail => exact ⟨h0, h1, by intro hst; cases hst⟩
  | cancel => exact ⟨h0, h1, by intro hst; cases hst⟩

/-- C6 amended: after any sequence of lifecycle calls with natural byte
counts, progress stays within zero and one hundred; and the full invariant
including COMPLETED-implies-progress-100 holds for every sequence in which
update_progress is never invoked on an already COMPLETED task (which is
the only way the counterexample arises). -/
theorem c6_progress_invariant (t : TransferTask) (ops : List TaskOp) :
    ((0 ≤ t.progress ∧ t.progress ≤ 100) →
       0 ≤ (applyOps t ops).progress ∧ (applyOps t ops).progress ≤ 100) ∧
    (progressInv t → okSeq t ops = true → progressInv (applyOps t ops)) := by
  induction ops generalizing t with
  | nil => exact ⟨fun h => h, fun h _ => h⟩
  | cons op rest ih =>
    constructor
    · rintro ⟨h0, h1⟩
      exact (ih (applyOp t op)).1 (applyOp_progress_bounds t op h0 h1)
    · intro hinv hok
      simp only [okSeq, Bool.and_eq_true] at hok
      refine (ih (applyOp t op)).2 (applyOp_progressInv t op hinv ?_) hok.2
      intro c tot hop
      subst hop
      simpa using hok.1

/-- A digit character is not Python whitespace. -/
theorem digit_not_ws (c : Char) (h : isDigitC c = true) : pyWhitespace c = false := by
  cases hws : pyWhitespace c with
  | false => rfl
  | true =>
    exfalso
    simp only [pyWhitespace, Bool.or_eq_true, decide_eq_true_eq] at hws
    rcases hws with ((((h1 | h1) | h1) | h1) | h1) | h1 <;>
      (subst h1; exact absurd h (by decide))

/-- A digit character is neither a sign nor an underscore. -/
theorem digit_not_sign (c : Char) (h : isDigitC c = true) :
    c ≠ '+' ∧ c ≠ '-' ∧ c ≠ '_' := by
  refine ⟨?_, ?_, ?_⟩ <;> (intro h1; subst h1; exact absurd h (by decide))

/-- dropWhile is the identity when no element satisfies the predicate. -/
theorem dropWhile_eq_self_of_none {p : Char → Bool} (l : List Char)
    (h : ∀ c ∈ l, p c = false) : l.dropWhile p = l := by
  cases l with
  | nil => rfl
  | cons c cs => simp [List.dropWhile_cons, h c (List.mem_cons_self c cs)]

/-- stripChars is the identity on strings without Python whitespace. -/
theorem stripChars_of_no_ws (l : List Char)
    (h : ∀ c ∈ l, pyWhitespace c = false) : stripChars l = l := by
  unfold stripChars
  rw [dropWhile_eq_self_of_none l h]
  rw [dropWhile_eq_self_of_none l.reverse (by intro c hc; exact h c (List.mem_reverse.mp hc))]
  exact List.reverse_reverse l

/-- pyDigitsGo consumes an all-digit tail by folding its digits in. -/
theorem pyDigitsGo_digits (l : List Char) (acc : Nat)
    (h : ∀ c ∈ l, isDigitC c = true) :
    pyDigitsGo acc l = some (l.foldl (fun a c => a * 10 + digitVal c) acc) := by
  induction l generalizing acc with
  | nil => rfl
  | cons c cs ih =>
    have hc := h c (List.mem_cons_self c cs)
    have hstep : pyDigitsGo acc (c :: cs) = pyDigitsGo (acc * 10 + digitVal c) cs := by
      conv_lhs => unfold pyDigitsGo
      rw [if_pos hc]
    rw [List.foldl_cons, hstep]
    exact ih _ (fun d hd => h d (List.mem_cons_of_mem c hd))

/-- On a nonempty all-digit string, Python int() yields the digit value. -/
theorem pyInt_digits (l : List Char) (hne : l ≠ [])
    (h : ∀ c ∈ l, isDigitC c = true) :
    pyInt l = some ((digitsToNat l : Nat) : Int) := by
  have hstrip : stripChars l = l :=
    stripChars_of_no_ws l (fun c hc => digit_not_ws c (h c hc))
  cases l with
  | nil => exact absurd rfl hne
  | cons c cs =>
    have hc := h c (List.mem_cons_self c cs)
    obtain ⟨hplus, hminus, _⟩ := digit_not_sign c hc
    simp only [pyInt, hstrip]
    rw [if_neg hplus, if_neg hminus]
    simp only [pyDigits]
    rw [if_pos hc,
        pyDigitsGo_digits cs (digitVal c) (fun d hd => h d (List.mem_cons_of_mem c hd))]
    simp [digitsToNat]

/-- C10: parse_response is total: when the first three characters parse as
a Python integer it returns that code with the whitespace-stripped
remainder, otherwise it returns none with the input unchanged; in
particular three leading digits always parse to their decimal value. -/
theorem c10_parse_response (r : List Char) :
    (∀ n, pyInt (r.take 3) = some n →
        parse_response r = (some n, stripChars (r.drop 3))) ∧
    (pyInt (r.take 3) = none → parse_response r = (none, r)) ∧
    (∀ d1 d2 d3 rest, r = d1 :: d2 :: d3 :: rest →
        isDigitC d1 = true → isDigitC d2 = true → isDigitC d3 = true →
        parse_response r =
          (some ((100 * digitVal d1 + 10 * digitVal d2 + digitVal d3 : Nat) : Int),
            stripChars rest)) := by
  refine ⟨?_, ?_, ?_⟩
  · intro n h
    simp [parse_response, h]
  · intro h
    simp [parse_response, h]
  · intro d1 d2 d3 rest hr h1 h2 h3
    subst hr
    have htake : (d1 :: d2 :: d3 :: rest).take 3 = [d1, d2, d3] := rfl
    have hdig : ∀ c ∈ [d1, d2, d3], isDigitC c = true := by
      intro c hc
      simp only [List.mem_cons, List.not_mem_nil, or_false] at hc
      rcases hc with h | h | h <;> subst h <;> assumption
    have hp := pyInt_digits [d1, d2, d3] (by simp) hdig
    have hval : digitsToNat [d1, d2, d3] =
        100 * digitVal d1 + 10 * digitVal d2 + digitVal d3 := by
      simp [digitsToNat]
      ring
    simp [parse_response, htake, hp, hval]

/-- C10 witness at the reply text 220 OK. -/
theorem c10_parse_response_witness :
    parse_response "220 OK".toList = (some 220, "OK".toList) := by
  have h := (c10_parse_response "220 OK".toList).2.2 '2' '2' '0' " OK".toList
    rfl (by decide) (by decide) (by decide)
  rw [h]
  decide

/-- C1 counterexample: the receive loop ends the reply at the line
"hey there", whose fourth character is a space although the line does not
begin with three digits, refuting the claimed exactly-three-digits-then-
space termination condition. -/
theorem c1_counterexample :
    readResponse ["hey there".toList] = .ok "hey there".toList none ∧
    beginsThreeDigitsSpace "hey there".toList = false := by
  exact ⟨by decide, by decide⟩

/-- C1 amended: a line ends the reply exactly when its fourth character
exists and is a space, with no requirement that the first three characters
be digits or match earlier lines; such a line starting with the character
five raises CommandError instead of returning; every other line, whatever
its first three characters, is appended as continuation; the returned code
is parse_response applied to the whole accumulated reply. -/
theorem c1_read_response (acc line : List Char) (rest : List (List Char)) :
    (line.get? 3 = some ' ' → line.head? ≠ some '5' →
        readLoop acc (line :: rest) = .ok (acc ++ line) (parse_response (acc ++ line)).1) ∧
    (line.get? 3 = some ' ' → line.head? = some '5' →
        readLoop acc (line :: rest) = .cmdError (stripChars line)) ∧
    (line.get? 3 ≠ some ' ' →
        readLoop acc (line :: rest) = readLoop (acc ++ line) rest) := by
  refine ⟨?_, ?_, ?_⟩
  · intro hsp h5
    obtain ⟨hlen, _⟩ := List.get?_eq_some.mp hsp
    simp only [readLoop]
    rw [if_neg (by rintro ⟨h5a, _⟩; exact h5 h5a), if_pos ⟨hlen, hsp⟩]
  · intro hsp h5
    simp only [readLoop]
    rw [if_pos ⟨h5, hsp⟩]
  · intro hsp
    simp only [readLoop]
    rw [if_neg (by rintro ⟨_, ha⟩; exact hsp ha),
        if_neg (by rintro ⟨_, ha⟩; exact hsp ha)]

/-- C1 amended witness: a two-line 220 reply with a hyphen continuation
line accumulates whole and parses code 220. -/
theorem c1_read_response_witness :
    readResponse ["220-Hi\r\n".toList, "220 Ok\r\n".toList] =
      .ok ("220-Hi\r\n".toList ++ "220 Ok\r\n".toList) (some 220) := by
  have h1 := (c1_read_response [] "220-Hi\r\n".toList ["220 Ok\r\n".toList]).2.2 (by decide)
  have h2 := (c1_read_response ("220-Hi\r\n".toList) "220 Ok\r\n".toList []).1 (by decide) (by decide)
  unfold readResponse
  rw [h1]
  simp only [List.nil_append]
  rw [h2]
  decide

/-- C6 amended witness: a normal run-update-complete lifecycle satisfies
the invariant. -/
theorem c6_progress_invariant_witness :
    progressInv (applyOps t6 [.run, .update 1 2, .complete]) := by
  have hbase : progressInv t6 := by
    refine ⟨by norm_num [t6], by norm_num [t6], ?_⟩
    intro h
    exact absurd h (by decide)
  exact (c6_progress_invariant t6 [.run, .update 1 2, .complete]).2 hbase (by decide)

/-- The heap-key comparison is reflexive. -/
theorem keyLeB_refl (a : TransferTask) : keyLeB a a = true := by
  simp [keyLeB]

/-- The heap-key comparison is total. -/
theorem keyLeB_total (a b : TransferTask) : keyLeB a b = true ∨ keyLeB b a = true := by
  simp only [keyLeB, Bool.or_eq_true, Bool.and_eq_true, decide_eq_true_eq]
  omega

/-- The heap-key comparison is transitive. -/
theorem keyLeB_trans (a b c : TransferTask)
    (h1 : keyLeB a b = true) (h2 : keyLeB b c = true) : keyLeB a c = true := by
  simp only [keyLeB, Bool.or_eq_true, Bool.and_eq_true, decide_eq_true_eq] at h1 h2 ⊢
  omega

/-- selectMin leaves the rest of the list at the same length. -/
theorem selectMin_length (x : TransferTask) (ys : List TransferTask) :
    (selectMin x ys).2.length = ys.length := by
  induction ys generalizing x with
  | nil => rfl
  | cons y ys ih =>
    by_cases h : keyLeB x y = true <;> simp [selectMin, h, ih]

/-- selectMin permutes its input. -/
theorem selectMin_perm (x : TransferTask) (ys : List TransferTask) :
    ((selectMin x ys).1 :: (selectMin x ys).2).Perm (x :: ys) := by
  induction ys generalizing x with
  | nil => exact List.Perm.refl _
  | cons y ys ih =>
    by_cases h : keyLeB x y = true
    · simp only [selectMin, if_pos h]
      exact ((List.Perm.swap _ _ _).trans ((ih x).cons y)).trans (List.Perm.swap _ _ _)
    · simp only [selectMin, if_neg h]
      exact (List.Perm.swap _ _ _).trans ((ih y).cons x)

/-- The element selectMin extracts is minimal for the heap key. -/
theorem selectMin_min (x : TransferTask) (ys : List TransferTask) :
    keyLeB (selectMin x ys).1 x = true ∧
      ∀ z ∈ ys, keyLeB (selectMin x ys).1 z = true := by
  induction ys generalizing x with
  | nil => exact ⟨keyLeB_refl x, by intro z hz; cases hz⟩
  | cons y ys ih =>
    by_cases h : keyLeB x y = true
    · simp only [selectMin, if_pos h]
      obtain ⟨ha, hb⟩ := ih x
      refine ⟨ha, ?_⟩
      intro z hz
      rcases List.mem_cons.mp hz with rfl | hz
      · exact keyLeB_trans _ _ _ ha h
      · exact hb z hz
    · have hyx : keyLeB y x = true := (keyLeB_total x y).resolve_left h
      simp only [selectMin, if_neg h]
      obtain ⟨ha, hb⟩ := ih y
      refine ⟨keyLeB_trans _ _ _ ha hyx, ?_⟩
      intro z hz
      rcases List.mem_cons.mp hz with rfl | hz
      · exact ha
      · exact hb z hz

/-- Repeated minimum extraction permutes the queue contents. -/
theorem popAllF_perm : ∀ (n : Nat) (l : List TransferTask), l.length ≤ n →
    (popAllF n l).Perm l := by
  intro n
  induction n with
  | zero =>
    intro l h
    have : l = [] := List.length_eq_zero.mp (Nat.le_zero.mp h)
    subst this
    exact List.Perm.refl _
  | succ n ih =>
    intro l h
    cases l with
    | nil => exact List.Perm.refl _
    | cons x xs =>
      simp only [popAllF]
      have hlen : (selectMin x xs).2.length ≤ n := by
        rw [selectMin_length]
        simpa using h
      exact (((ih _ hlen).cons _)).trans (selectMin_perm x xs)

/-- Repeated minimum extraction emits tasks in nondecreasing key order. -/
theorem popAllF_pairwise : ∀ (n : Nat) (l : List TransferTask), l.length ≤ n →
    (popAllF n l).Pairwise (fun a b => keyLeB a b = true) := by
  intro n
  induction n with
  | zero => intro l _; exact List.Pairwise.nil
  | succ n ih =>
    intro l h
    cases l with
    | nil => exact List.Pairwise.nil
    | cons x xs =>
      simp only [popAllF]
      have hlen : (selectMin x xs).2.length ≤ n := by
        rw [selectMin_length]
        simpa using h
      refine List.Pairwise.cons ?_ (ih _ hlen)
      intro z hz
      have hz2 : z ∈ (selectMin x xs).2 := (popAllF_perm n _ hlen).mem_iff.mp hz
      have hz3 : z ∈ x :: xs :=
        (selectMin_perm x xs).mem_iff.mp (List.mem_cons_of_mem _ hz2)
      obtain ⟨ha, hb⟩ := selectMin_min x xs
      rcases List.mem_cons.mp hz3 with rfl | hz4
      · exact ha
      · exact hb z hz4

/-- C5: the queue pops tasks as a permutation of its contents, and
whenever task A has a strictly greater priority ordinal than task B, or
equal ordinal and strictly earlier creation time, A is handed to a worker
before B. -/
theorem c5_priority_order (l : List TransferTask) :
    (popAll l).Perm l ∧
    ∀ (i j : Nat) (hi : i < (popAll l).length) (hj : j < (popAll l).length),
      (((popAll l).get ⟨j, hj⟩).priority.value <
          ((popAll l).get ⟨i, hi⟩).priority.value ∨
        (((popAll l).get ⟨i, hi⟩).priority.value =
            ((popAll l).get ⟨j, hj⟩).priority.value ∧
          ((popAll l).get ⟨i, hi⟩).created_time <
            ((popAll l).get ⟨j, hj⟩).created_time)) →
      i < j := by
  have hperm := popAllF_perm l.length l (le_refl _)
  have hpw := popAllF_pairwise l.length l (le_refl _)
  refine ⟨hperm, ?_⟩
  intro i j hi hj hprio
  by_contra hij
  push_neg at hij
  have hle : keyLeB ((popAll l).get ⟨j, hj⟩) ((popAll l).get ⟨i, hi⟩) = true := by
    rcases Nat.lt_or_ge j i with hlt | hge
    · exact List.pairwise_iff_get.mp hpw ⟨j, hj⟩ ⟨i, hi⟩ hlt
    · have : i = j := Nat.le_antisymm hge hij
      subst this
      exact keyLeB_refl _
  simp only [keyLeB, Bool.or_eq_true, Bool.and_eq_true, decide_eq_true_eq, taskKey] at hle
  rcases hprio with hp | ⟨hp, hc⟩ <;> omega

/-- C5 witness: with a NORMAL task submitted first and an URGENT task
second, the URGENT task is popped first. -/
theorem c5_priority_order_witness :
    (popAll [tB, tA]).Perm [tB, tA] ∧ 0 < 1 := by
  refine ⟨(c5_priority_order [tB, tA]).1, ?_⟩
  exact (c5_priority_order [tB, tA]).2 0 1 (by decide) (by decide) (by decide)

/-- C2 counterexample: with pool_size one, two checkouts leave one idle
plus in-use client count equal to two, exceeding pool_size, because
get_client creates a brand-new client whenever the queue is empty. -/
theorem c2_counterexample :
    ((get_client (get_client (clientPoolInit 1)).2).2.idle.length +
        (get_client (get_client (clientPoolInit 1)).2).2.busy.length = 2) ∧
    ¬ ((get_client (get_client (clientPoolInit 1)).2).2.idle.length +
        (get_client (get_client (clientPoolInit 1)).2).2.busy.length ≤ 1) := by
  exact ⟨by decide, by decide⟩

/-- Every reachable FTPConnectionPool state keeps idle plus active within
max_connections. -/
theorem connPool_inv {maxConn : Nat} {s : ConnPoolState}
    (h : ConnReach maxConn s) : s.idle + s.active ≤ maxConn := by
  induction h with
  | init => exact Nat.zero_le maxConn
  | step hr hstep ih =>
    cases hstep with
    | dropStale i a => dsimp only at ih ⊢; omega
    | reuse i a => dsimp only at ih ⊢; omega
    | createNew a hlt => dsimp only at ih ⊢; omega
    | releaseBack i a => dsimp only at ih ⊢; omega
    | releaseDead i a => dsimp only at ih ⊢; omega

/-- The FTPClientPool invariant holds initially. -/
theorem cpInv_init (pool_size : Nat) : cpInv pool_size (clientPoolInit pool_size) := by
  refine ⟨List.nodup_range pool_size, List.nodup_nil, ?_, ?_, ?_, ?_⟩
  · intro c _ hc
    exact List.not_mem_nil c hc
  · intro c hc
    exact List.mem_range.mp hc
  · intro c hc
    exact absurd hc (List.not_mem_nil c)
  · simp [clientPoolInit]

/-- Each FTPClientPool request preserves the invariant. -/
theorem applyPoolOp_inv (ps : Nat) (s : ClientPoolState) (op : PoolOp)
    (h : cpInv ps s) : cpInv ps (applyPoolOp ps s op) := by
  obtain ⟨idl, bsy, nid⟩ := s
  obtain ⟨hIdleND, hBusyND, hDisj, hIdleLt, hBusyLt, hLen⟩ := h
  dsimp only at hIdleND hBusyND hDisj hIdleLt hBusyLt hLen
  cases op with
  | get =>
    cases idl with
    | nil =>
      show cpInv ps { idle := [], busy := nid :: bsy, next_id := nid + 1 }
      refine ⟨List.nodup_nil, ?_, ?_, ?_, ?_, ?_⟩
      · exact List.Nodup.cons (fun hc => absurd (hBusyLt _ hc) (by omega)) hBusyND
      · intro c hc
        exact absurd hc (List.not_mem_nil c)
      · intro c hc
        exact absurd hc (List.not_mem_nil c)
      · intro c hc
        rcases List.mem_cons.mp hc with rfl | hc
        · exact Nat.lt_succ_self _
        · exact Nat.lt_succ_of_lt (hBusyLt c hc)
      · exact Nat.zero_le ps
    | cons c0 rest =>
      show cpInv ps { idle := rest, busy := c0 :: bsy, next_id := nid }
      refine ⟨?_, ?_, ?_, ?_, ?_, ?_⟩
      · exact (List.nodup_cons.mp hIdleND).2
      · exact List.Nodup.cons (hDisj c0 (List.mem_cons_self _ _)) hBusyND
      · intro c hc
        simp only [List.mem_cons, not_or]
        constructor
        · intro hcc
          subst hcc
          exact (List.nodup_cons.mp hIdleND).1 hc
        · exact hDisj c (List.mem_cons_of_mem _ hc)
      · intro c hc
        exact hIdleLt c (List.mem_cons_of_mem _ hc)
      · intro c hc
        rcases List.mem_cons.mp hc with rfl | hc
        · exact hIdleLt c (List.mem_cons_self _ _)
        · exact hBusyLt c hc
      · simp only [List.length_cons] at hLen
        show rest.length ≤ ps
        omega
  | release c =>
    show cpInv ps (release_client ps { idle := idl, busy := bsy, next_id := nid } c)
    simp only [release_client]
    by_cases hc : c ∈ bsy
    · rw [if_pos hc]
      by_cases hroom : idl.length < ps
      · rw [if_pos hroom]
        have hcNotIdle : c ∉ idl := fun hci => hDisj c hci hc
        refine ⟨?_, hBusyND.erase c, ?_, ?_, ?_, ?_⟩
        · rw [List.nodup_append]
          refine ⟨hIdleND, List.nodup_singleton c, ?_⟩
          intro x hx hxc
          rcases List.mem_singleton.mp hxc with rfl
          exact hcNotIdle hx
        · intro x hx
          rcases List.mem_append.mp hx with hx | hx
          · intro hxe
            exact hDisj x hx (List.mem_of_mem_erase hxe)
          · rcases List.mem_singleton.mp hx with rfl
            exact hBusyND.not_mem_erase
        · intro x hx
          rcases List.mem_append.mp hx with hx | hx
          · exact hIdleLt x hx
          · rcases List.mem_singleton.mp hx with rfl
            exact hBusyLt _ hc
        · intro x hx
          exact hBusyLt x (List.mem_of_mem_erase hx)
        · rw [List.length_append, List.length_singleton]
          omega
      · rw [if_neg hroom]
        refine ⟨hIdleND, hBusyND.erase c, ?_, hIdleLt, ?_, hLen⟩
        · intro x hx hxe
          exact hDisj x hx (List.mem_of_mem_erase hxe)
        · intro x hx
          exact hBusyLt x (List.mem_of_mem_erase hx)
    · rw [if_neg hc]
      exact ⟨hIdleND, hBusyND, hDisj, hIdleLt, hBusyLt, hLen⟩

/-- C2 amended: FTPConnectionPool does maintain the claimed bound: from
its empty initial state, along every interleaving of validator drops,
reuses, fresh creations and releases, idle plus busy stays within
max_connections. FTPClientPool maintains only idle-bounded-by-pool_size
and idle/in-use disjointness with no duplicates: its idle-plus-busy sum
can exceed pool_size because an empty queue makes get_client create an
extra session (see the counterexample). -/
theorem c2_pool_invariants :
    (∀ (maxConn : Nat) (s : ConnPoolState),
        ConnReach maxConn s → s.idle + s.active ≤ maxConn) ∧
    (∀ (pool_size : Nat) (ops : List PoolOp),
        cpInv pool_size (runPool pool_size ops)) := by
  constructor
  · intro maxConn s h
    exact connPool_inv h
  · intro ps ops
    suffices hstep : ∀ (s : ClientPoolState), cpInv ps s →
        cpInv ps (ops.foldl (applyPoolOp ps) s) by
      exact hstep _ (cpInv_init ps)
    induction ops with
    | nil => intro s hs; exact hs
    | cons op rest ih =>
      intro s hs
      exact ih _ (applyPoolOp_inv ps s op hs)

/-- C2 amended witness: a freshly created connection respects the counted
bound, and a checkout-release round trip on FTPClientPool keeps its
invariant. -/
theorem c2_pool_invariants_witness :
    (⟨0, 1⟩ : ConnPoolState).idle + (⟨0, 1⟩ : ConnPoolState).active ≤ 2 ∧
    cpInv 1 (runPool 1 [.get, .release 0]) := by
  refine ⟨?_, c2_pool_invariants.2 1 [.get, .release 0]⟩
  exact c2_pool_invariants.1 2 ⟨0, 1⟩
    (ConnReach.step ConnReach.init (ConnPoolStep.createNew 0 (by omega)))

/-- Every character of a decimal rendering is a digit. -/
theorem toDecimal_digits (n : Nat) : ∀ c ∈ toDecimal n, isDigitC c = true := by
  induction n using Nat.strong_induction_on with
  | _ n ih =>
    by_cases h : n < 10
    · rw [toDecimal, dif_pos h]
      intro c hc
      rcases List.mem_singleton.mp hc with rfl
      unfold digitChar10
      split <;> decide
    · rw [toDecimal, dif_neg h]
      intro c hc
      rcases List.mem_append.mp hc with hc | hc
      · exact ih (n / 10) (Nat.div_lt_self (by omega) (by omega)) c hc
      · rcases List.mem_singleton.mp hc with rfl
        unfold digitChar10
        split <;> decide

/-- A decimal rendering is never empty. -/
theorem toDecimal_ne_nil (n : Nat) : toDecimal n ≠ [] := by
  by_cases h : n < 10
  · rw [toDecimal, dif_pos h]
    simp
  · rw [toDecimal, dif_neg h]
    simp

/-- The digit for a value below ten carries that value. -/
theorem digitVal_digitChar10 (d : Nat) (h : d < 10) : digitVal (digitChar10 d) = d := by
  interval_cases d <;> decide

/-- Folding the decimal digits of n into an accumulator. -/
theorem foldl_toDecimal (n : Nat) : ∀ acc : Nat,
    (toDecimal n).foldl (fun a c => a * 10 + digitVal c) acc =
      acc * 10 ^ (toDecimal n).length + n := by
  induction n using Nat.strong_induction_on with
  | _ n ih =>
    intro acc
    by_cases h : n < 10
    · rw [toDecimal, dif_pos h]
      simp [digitVal_digitChar10 n h]
    · rw [toDecimal, dif_neg h]
      rw [List.foldl_append, ih (n / 10) (Nat.div_lt_self (by omega) (by omega)) acc]
      simp only [List.foldl_cons, List.foldl_nil, List.length_append, List.length_cons,
        List.length_nil]
      rw [digitVal_digitChar10 (n % 10) (Nat.mod_lt n (by omega))]
      have hpow : 10 ^ ((toDecimal (n / 10)).length + (0 + 1)) =
          10 ^ (toDecimal (n / 10)).length * 10 := by
        rw [Nat.zero_add, Nat.pow_succ]
      rw [hpow]
      have hdm := Nat.div_add_mod n 10
      ring_nf
      omega

/-- The decimal codec round-trips. -/
theorem digitsToNat_toDecimal (n : Nat) : digitsToNat (toDecimal n) = n := by
  have h := foldl_toDecimal n 0
  simpa [digitsToNat] using h

/-- A digit prefix is taken whole by takeWhile and dropped whole by
dropWhile when the remainder does not begin with a digit. -/
theorem takeDigitRun_append (A r : List Char)
    (hA : ∀ c ∈ A, isDigitC c = true)
    (hr : ∀ ch, r.head? = some ch → isDigitC ch = false) :
    takeDigitRun (A ++ r) = (A, r) := by
  unfold takeDigitRun
  induction A with
  | nil =>
    simp only [List.nil_append]
    cases r with
    | nil => rfl
    | cons ch rest =>
      have := hr ch rfl
      simp [List.takeWhile_cons, List.dropWhile_cons, this]
  | cons a A2 ih =>
    have ha := hA a (List.mem_cons_self _ _)
    have ih2 := ih (fun c hc => hA c (List.mem_cons_of_mem _ hc))
    simp only [List.cons_append, List.takeWhile_cons, List.dropWhile_cons, ha, if_pos]
    simp only [Prod.mk.injEq] at ih2
    simp [ih2.1, ih2.2]

/-- A separator absent from the string leaves Python split trivial. -/
theorem pySplit_no_sep (sep : Char) (A : List Char) (h : sep ∉ A) :
    pySplit sep A = [A] := by
  induction A with
  | nil => rfl
  | cons a A2 ih =>
    have hne : ¬ a = sep := fun heq => h (heq ▸ List.mem_cons_self _ _)
    have ih2 := ih (fun hmem => h (List.mem_cons_of_mem _ hmem))
    simp [pySplit, hne, ih2]

/-- Python split peels one separator-terminated field at a time. -/
theorem pySplit_append (sep : Char) (A rest : List Char) (h : sep ∉ A) :
    pySplit sep (A ++ sep :: rest) = A :: pySplit sep rest := by
  induction A with
  | nil => simp [pySplit]
  | cons a A2 ih =>
    have hne : ¬ a = sep := fun heq => h (heq ▸ List.mem_cons_self _ _)
    have ih2 := ih (fun hmem => h (List.mem_cons_of_mem _ hmem))
    simp [pySplit, hne, ih2]

/-- A digit never equals a non-digit separator character. -/
theorem not_mem_of_digits (sep : Char) (A : List Char)
    (hA : ∀ c ∈ A, isDigitC c = true) (hsep : isDigitC sep = false) : sep ∉ A := by
  intro hmem
  rw [hA sep hmem] at hsep
  cases hsep

/-- The regex matcher consumes one digit group and its comma. -/
theorem matchGroups_step (k : Nat) (A r : List Char) (hk : k ≠ 0)
    (hA : ∀ c ∈ A, isDigitC c = true) (hne : A ≠ []) :
    matchGroups (k + 1) (A ++ ',' :: r) =
      (matchGroups k r).map (fun p => (digitsToNat A :: p.1, p.2)) := by
  have htd : takeDigitRun (A ++ ',' :: r) = (A, ',' :: r) :=
    takeDigitRun_append A (',' :: r) hA (by intro ch hch; cases hch; decide)
  have hempty : A.isEmpty = false := by
    cases A with
    | nil => exact absurd rfl hne
    | cons x xs => rfl
  simp only [matchGroups, htd, hempty, Bool.false_eq_true, if_false, if_neg hk]

/-- The regex matcher finishes on the final digit group, greedily. -/
theorem matchGroups_last (A post : List Char)
    (hA : ∀ c ∈ A, isDigitC c = true) (hne : A ≠ [])
    (hpost : ∀ ch, post.head? = some ch → isDigitC ch = false) :
    matchGroups 1 (A ++ post) = some ([digitsToNat A], post) := by
  have htd : takeDigitRun (A ++ post) = (A, post) := takeDigitRun_append A post hA hpost
  have hempty : A.isEmpty = false := by
    cases A with
    | nil => exact absurd rfl hne
    | cons x xs => rfl
  simp only [matchGroups, htd, hempty, Bool.false_eq_true, if_false]
  simp

/-- No match can start where no digit stands. -/
theorem matchGroups_no_digit (k : Nat) (l : List Char) (hk : k ≠ 0)
    (h : ∀ ch, l.head? = some ch → isDigitC ch = false) :
    matchGroups k l = none := by
  cases k with
  | zero => exact absurd rfl hk
  | succ k =>
    have htd : takeDigitRun l = ([], l) := by
      have := takeDigitRun_append [] l (by intro c hc; cases hc) h
      simpa using this
    simp only [matchGroups, htd, List.isEmpty_nil, if_pos]

/-- The regex search moves past every position of the prefix at which no
six-group match starts. -/
theorem findSix_of_no_early (pre rest : List Char)
    (h : ∀ i, i < pre.length → matchGroups 6 ((pre ++ rest).drop i) = none) :
    findSix (pre ++ rest) = findSix rest := by
  induction pre with
  | nil => rfl
  | cons c pre2 ih =>
    have h0 := h 0 (by simp)
    rw [List.drop_zero] at h0
    have h0b : matchGroups 6 (c :: pre2.append rest) = none := h0
    simp only [List.cons_append, findSix]
    rw [h0b]
    apply ih
    intro i hi
    have h1 := h (i + 1) (by simp; omega)
    simpa using h1

/-- The regex search returns the match found at the head. -/
theorem findSix_head (l : List Char) (p : List Nat × List Char)
    (hl : l ≠ []) (h : matchGroups 6 l = some p) : findSix l = some p.1 := by
  cases l with
  | nil => exact absurd rfl hl
  | cons c cs => simp only [findSix, h]

/-- Six comma-separated digit runs match as one group each, leaving the
trailing text untouched. -/
theorem matchGroups_six_cat (A B C D E F post : List Char)
    (dA : ∀ c ∈ A, isDigitC c = true) (nA : A ≠ [])
    (dB : ∀ c ∈ B, isDigitC c = true) (nB : B ≠ [])
    (dC : ∀ c ∈ C, isDigitC c = true) (nC : C ≠ [])
    (dD : ∀ c ∈ D, isDigitC c = true) (nD : D ≠ [])
    (dE : ∀ c ∈ E, isDigitC c = true) (nE : E ≠ [])
    (dF : ∀ c ∈ F, isDigitC c = true) (nF : F ≠ [])
    (hpost : ∀ ch, post.head? = some ch → isDigitC ch = false) :
    matchGroups 6
        (A ++ ',' :: (B ++ ',' :: (C ++ ',' :: (D ++ ',' :: (E ++ ',' :: (F ++ post)))))) =
      some ([digitsToNat A, digitsToNat B, digitsToNat C, digitsToNat D,
             digitsToNat E, digitsToNat F], post) := by
  have m1 : matchGroups 1 (F ++ post) = some ([digitsToNat F], post) :=
    matchGroups_last F post dF nF hpost
  have m2 : matchGroups 2 (E ++ ',' :: (F ++ post)) =
      some ([digitsToNat E, digitsToNat F], post) := by
    have h := matchGroups_step 1 E (F ++ post) (by omega) dE nE
    rw [m1] at h
    simpa using h
  have m3 : matchGroups 3 (D ++ ',' :: (E ++ ',' :: (F ++ post))) =
      some ([digitsToNat D, digitsToNat E, digitsToNat F], post) := by
    have h := matchGroups_step 2 D (E ++ ',' :: (F ++ post)) (by omega) dD nD
    rw [m2] at h
    simpa using h
  have m4 : matchGroups 4 (C ++ ',' :: (D ++ ',' :: (E ++ ',' :: (F ++ post)))) =
      some ([digitsToNat C, digitsToNat D, digitsToNat E, digitsToNat F], post) := by
    have h := matchGroups_step 3 C (D ++ ',' :: (E ++ ',' :: (F ++ post)))
      (by omega) dC nC
    rw [m3] at h
    simpa using h
  have m5 : matchGroups 5
      (B ++ ',' :: (C ++ ',' :: (D ++ ',' :: (E ++ ',' :: (F ++ post))))) =
      some ([digitsToNat B, digitsToNat C, digitsToNat D, digitsToNat E,
             digitsToNat F], post) := by
    have h := matchGroups_step 4 B (C ++ ',' :: (D ++ ',' :: (E ++ ',' :: (F ++ post))))
      (by omega) dB nB
    rw [m4] at h
    simpa using h
  have h := matchGroups_step 5 A
    (B ++ ',' :: (C ++ ',' :: (D ++ ',' :: (E ++ ',' :: (F ++ post))))) (by omega) dA nA
  rw [m5] at h
  simpa using h

/-- A value below ten renders as its single digit. -/
theorem toDecimal_base (n : Nat) (h : n < 10) : toDecimal n = [digitChar10 n] := by
  rw [toDecimal, dif_pos h]

/-- A value of ten or more renders as its leading digits then its last. -/
theorem toDecimal_step (n : Nat) (h : ¬ n < 10) :
    toDecimal n = toDecimal (n / 10) ++ [digitChar10 (n % 10)] := by
  rw [toDecimal, dif_neg h]

/-- The concrete dotted quad for the address 192.168.1.2. -/
theorem dottedQuad_concrete : dottedQuad 192 168 1 2 = "192.168.1.2".toList := by
  have h192 : toDecimal 192 = '1' :: '9' :: ['2'] := by
    rw [toDecimal_step 192 (by omega)]
    norm_num
    rw [toDecimal_step 19 (by omega)]
    norm_num
    rw [toDecimal_base 1 (by omega)]
    decide
  have h168 : toDecimal 168 = '1' :: '6' :: ['8'] := by
    rw [toDecimal_step 168 (by omega)]
    norm_num
    rw [toDecimal_step 16 (by omega)]
    norm_num
    rw [toDecimal_base 1 (by omega)]
    decide
  unfold dottedQuad
  rw [h192, h168, toDecimal_base 1 (by omega), toDecimal_base 2 (by omega)]
  decide

/-- The concrete PORT/PASV argument for 192.168.1.2 at port 4242. -/
theorem build_port_concrete :
    build_port_command (dottedQuad 192 168 1 2) 4242 = "192,168,1,2,16,146".toList := by
  have h16 : toDecimal 16 = '1' :: ['6'] := by
    rw [toDecimal_step 16 (by omega)]
    norm_num
    rw [toDecimal_base 1 (by omega)]
    decide
  have h146 : toDecimal 146 = '1' :: '4' :: ['6'] := by
    rw [toDecimal_step 146 (by omega)]
    norm_num
    rw [toDecimal_step 14 (by omega)]
    norm_num
    rw [toDecimal_base 1 (by omega)]
    decide
  unfold build_port_command
  rw [dottedQuad_concrete]
  norm_num
  rw [h16, h146]
  decide

/-- C9 counterexample: a reply containing the build_port_command argument
for 192.168.1.2 port 4242 together with an earlier six-number run: the
leftmost regex match wins, so parse_pasv_response returns the decoy
address 1.2.3.4 with port 1286 instead of the encoded pair, refuting the
round trip over arbitrary replies that contain the argument. -/
theorem c9_counterexample :
    parse_pasv_response
        ("1,2,3,4,5,6 ".toList ++ build_port_command (dottedQuad 192 168 1 2) 4242) =
      some ("1.2.3.4".toList, 1286) ∧
    some ("1.2.3.4".toList, (1286 : Nat)) ≠ some (dottedQuad 192 168 1 2, 4242) := by
  constructor
  · rw [build_port_concrete]
    have hfind : findSix ("1,2,3,4,5,6 ".toList ++ "192,168,1,2,16,146".toList) =
        some [1, 2, 3, 4, 5, 6] := by decide
    simp only [parse_pasv_response, hfind]
    rw [toDecimal_base 1 (by omega), toDecimal_base 2 (by omega),
        toDecimal_base 3 (by omega), toDecimal_base 4 (by omega)]
    decide
  · intro heq
    rw [dottedQuad_concrete] at heq
    exact absurd heq (by decide)

/-- C9 amended: parse_pasv_response recovers exactly the encoded address
and port from every reply containing the build_port_command argument,
provided no six-comma-separated-digit-run match of the regex begins
before the argument and the text after the argument does not begin with a
digit; the standard reply 227 Entering Passive Mode (h1,h2,h3,h4,p1,p2)
meets both conditions, while a reply with an earlier decoy run does not
(see the counterexample). -/
theorem c9_pasv_amended (a b c d p : Nat) (pre post : List Char)
    (ha : a ≤ 255) (hb : b ≤ 255) (hc : c ≤ 255) (hd : d ≤ 255) (hp : p ≤ 65535)
    (hpre : ∀ i, i < pre.length →
        matchGroups 6
          ((pre ++ (build_port_command (dottedQuad a b c d) p ++ post)).drop i) = none)
    (hpost : ∀ ch, post.head? = some ch → isDigitC ch = false) :
    parse_pasv_response (pre ++ (build_port_command (dottedQuad a b c d) p ++ post)) =
      some (dottedQuad a b c d, p) := by
  have hsplit : pySplit '.' (dottedQuad a b c d) =
      [toDecimal a, toDecimal b, toDecimal c, toDecimal d] := by
    unfold dottedQuad
    rw [pySplit_append '.' (toDecimal a) _
          (not_mem_of_digits '.' _ (toDecimal_digits a) (by decide)),
        pySplit_append '.' (toDecimal b) _
          (not_mem_of_digits '.' _ (toDecimal_digits b) (by decide)),
        pySplit_append '.' (toDecimal c) _
          (not_mem_of_digits '.' _ (toDecimal_digits c) (by decide)),
        pySplit_no_sep '.' (toDecimal d)
          (not_mem_of_digits '.' _ (toDecimal_digits d) (by decide))]
  have hbuild : build_port_command (dottedQuad a b c d) p ++ post =
      toDecimal a ++ ',' :: (toDecimal b ++ ',' :: (toDecimal c ++ ',' ::
        (toDecimal d ++ ',' :: (toDecimal (p / 256) ++ ',' ::
          (toDecimal (p % 256) ++ post))))) := by
    unfold build_port_command
    rw [hsplit]
    simp [pyJoin, List.append_assoc]
  have hmg := matchGroups_six_cat (toDecimal a) (toDecimal b) (toDecimal c)
    (toDecimal d) (toDecimal (p / 256)) (toDecimal (p % 256)) post
    (toDecimal_digits a) (toDecimal_ne_nil a)
    (toDecimal_digits b) (toDecimal_ne_nil b)
    (toDecimal_digits c) (toDecimal_ne_nil c)
    (toDecimal_digits d) (toDecimal_ne_nil d)
    (toDecimal_digits (p / 256)) (toDecimal_ne_nil (p / 256))
    (toDecimal_digits (p % 256)) (toDecimal_ne_nil (p % 256)) hpost
  have hfind : findSix (pre ++ (build_port_command (dottedQuad a b c d) p ++ post)) =
      some [a, b, c, d, p / 256, p % 256] := by
    rw [findSix_of_no_early pre _ hpre, hbuild]
    have h := findSix_head _ _ (by simp [toDecimal_ne_nil a]) hmg
    rw [h]
    simp only [digitsToNat_toDecimal]
  have hport : (p / 256) <<< 8 + p % 256 = p := by
    rw [Nat.shiftLeft_eq]
    have h28 : (2 : Nat) ^ 8 = 256 := by norm_num
    rw [h28]
    omega
  simp only [parse_pasv_response, hfind, hport]
  rfl

/-- C9 amended witness at the genuine 227 reply for 192.168.1.2:4242. -/
theorem c9_pasv_amended_witness :
    parse_pasv_response
        ("227 Entering Passive Mode (".toList ++
          (build_port_command (dottedQuad 192 168 1 2) 4242 ++ ").\r\n".toList)) =
      some (dottedQuad 192 168 1 2, 4242) := by
  have hlit : "227 Entering Passive Mode (".toList ++
      (build_port_command (dottedQuad 192 168 1 2) 4242 ++ ").\r\n".toList) =
      "227 Entering Passive Mode (192,168,1,2,16,146).\r\n".toList := by
    rw [build_port_concrete]
    decide
  exact c9_pasv_amended 192 168 1 2 4242 "227 Entering Passive Mode (".toList ").\r\n".toList
    (by omega) (by omega) (by omega) (by omega) (by omega)
    (by rw [hlit]; decide)
    (by intro ch hch; simp at hch; subst hch; decide)

end FTPVerif
